import Mathlib

/-!
# Design-Pattern demos: Factory, Object Adapter, Singleton

A shallow embedding of the three C++ demo programs and the properties stated
about them.

Conventions of the embedding

* Standard output is a `String`; `cout << a << b << endl` appends `a ++ b ++ "\n"`.
* A C++ pointer (`T*`, `shared_ptr<T>`, `unique_ptr<T>`) is an `Option`:
  `none` is `nullptr`.  Dereferencing `nullptr` has no defined behaviour, so a
  function that dereferences returns `Option` and yields `none` there.
* An object of a class with virtual functions is a value of an inductive type
  whose constructors are the concrete classes (its dynamic type); a virtual
  call is a `match` on it.
* `int` values are mathematical integers in the 32-bit range; no arithmetic of
  the programs can overflow (the only arithmetic is one `count++` from 1).
-/

/-! ## Factory_Pattern.cpp -/

namespace Factory

/-- Dynamic type of an object behind an `IButton*`. -/
inductive IButton where
  | WinButton
  | MacButton
  | LinuxButton
  deriving DecidableEq, Repr

/-- Dynamic type of an object behind an `ITextBox*`. -/
inductive ITextBox where
  | WinTextBox
  | MacTextBox
  | LinuxTextBox
  deriving DecidableEq, Repr

/-- The virtual `OnClickEvent`: what the call writes to standard output. -/
def IButton.OnClickEvent : IButton → String
  | .WinButton => "Windows OS Button Click Event" ++ "\n"
  | .MacButton => "Mac OS Button Click Event" ++ "\n"
  | .LinuxButton => "Linux OS Button Click Event" ++ "\n"

/-- The virtual `ShowTextEvent`: what the call writes to standard output. -/
def ITextBox.ShowTextEvent : ITextBox → String
  | .WinTextBox => "Windows OS TextBox Event" ++ "\n"
  | .MacTextBox => "Mac OS TextBox Event" ++ "\n"
  | .LinuxTextBox => "Linux OS TextBox Event" ++ "\n"

/-- The text both factory methods write in their `default:` branch. -/
def unknownNotice : String := "Unknown OS type. Defaulting to Windows."

/-- Method `UIFactory::CreateButton`: the text written to standard output and the
returned pointer. -/
def UIFactory.CreateButton (osType : Int) : String × Option IButton :=
  if osType = 0 then ("", some .WinButton)
  else if osType = 1 then ("", some .MacButton)
  else if osType = 2 then ("", some .LinuxButton)
  else (unknownNotice ++ "\n", some .WinButton)

/-- Method `UIFactory::CreateTextBox`: the text written to standard output and the
returned pointer. -/
def UIFactory.CreateTextBox (osType : Int) : String × Option ITextBox :=
  if osType = 0 then ("", some .WinTextBox)
  else if osType = 1 then ("", some .MacTextBox)
  else if osType = 2 then ("", some .LinuxTextBox)
  else (unknownNotice ++ "\n", some .WinTextBox)

/-- Smallest value of the 32-bit `int`. -/
def INT_MIN : Int := -2147483648

/-- Largest value of the 32-bit `int`. -/
def INT_MAX : Int := 2147483647

/-- The read `cin >> osType` on a decimal integer `z` typed by the user: the value is
stored when it fits an `int`, and the nearest bound of `int` is stored (and the
stream's fail bit set) when it does not. -/
def cinInt (z : Int) : Int :=
  if z < INT_MIN then INT_MIN else if INT_MAX < z then INT_MAX else z

/-- The prompt `main` writes first, without a line end. -/
def prompt : String := "Select OS type (0: Windows, 1: Mac, 2: Linux): "

/-- Function `main` of the Factory demo, for the integer `input` typed on standard
input: standard output and the exit code. -/
def main (input : Int) : String × Int :=
  let out := prompt
  let osType := cinInt input
  let (o1, button) := UIFactory.CreateButton osType
  let out := out ++ o1
  let (o2, textBox) := UIFactory.CreateTextBox osType
  let out := out ++ o2
  let out := match button with
    | some b => out ++ b.OnClickEvent
    | none => out
  let out := match textBox with
    | some t => out ++ t.ShowTextEvent
    | none => out
  (out, 0)

/-- Number of positions of `s` at which `pat` starts. -/
def countOcc (pat : List Char) : List Char → Nat
  | [] => if pat.isPrefixOf [] then 1 else 0
  | c :: s => (if pat.isPrefixOf (c :: s) then 1 else 0) + countOcc pat s

/-- Number of line ends (`endl`) in an output. -/
def lineCount (out : String) : Nat := out.data.count '\n'

end Factory

/-! ## Object_Adapter_Design_Pattern.cpp -/

namespace ObjectAdapter

/-- Class `XMLData`: one private string. -/
structure XMLData where
  xmlData : String
  deriving DecidableEq, Repr

/-- Method `XMLData::getXmlData`. -/
def XMLData.getXmlData (x : XMLData) : String := x.xmlData

/-- Class `DataAnalyticsTool` with its subclass `Adapter`: the constructors are
the two dynamic types an object behind a `DataAnalyticsTool` pointer can have
(`base` for the class itself, `adapter` for `Adapter`).
`jsonData` is the protected member of the base; `xmlData` is the adapter's
`shared_ptr<XMLData>`. -/
inductive DataAnalyticsTool where
  | base (jsonData : String)
  | adapter (jsonData : String) (xmlData : Option XMLData)
  deriving DecidableEq, Repr

/-- The constructor `Adapter(shared_ptr<XMLData> pxmlData)`: the base is built
with `"Converted JSON Data"`. -/
def Adapter.new (pxmlData : Option XMLData) : DataAnalyticsTool :=
  .adapter "Converted JSON Data" pxmlData

/-- The virtual `AnalyseData`, dispatched on the dynamic type: the text written
to standard output (`none` when the adapter's `xmlData` is null). -/
def DataAnalyticsTool.AnalyseData : DataAnalyticsTool → Option String
  | .base jsonData => some ("Analysing JSON data: " ++ jsonData ++ "\n")
  | .adapter _ xmlData =>
    match xmlData with
    | none => none
    | some x =>
      some ("Converting XML Data: " ++ x.getXmlData ++ " to JSON format..." ++ "\n"
        ++ ("Analysing the converted JSON data." ++ "\n"))

/-- Method `Client::ProcessingData`: calls `tool->AnalyseData()`. -/
def Client.ProcessingData (tool : Option DataAnalyticsTool) : Option String :=
  match tool with
  | none => none
  | some t => t.AnalyseData

/-- Function `main` of the Adapter demo: standard output and the exit code. -/
def main : Option (String × Int) :=
  let xmlData := some (XMLData.mk "Sample XML Data")
  let tool := some (Adapter.new xmlData)
  match Client.ProcessingData tool with
  | none => none
  | some out => some (out, 0)

/-- The two lines documented after `main` in the source (`//output`). -/
def documentedOutput : String :=
  "Converting XML Data: Sample XML Data to JSON format...\n" ++
  "Analysing the converted JSON data.\n"

end ObjectAdapter

/-! ## Singleton_Design_Pattern.cpp -/

namespace Singleton

/-- The statics of class `Logger` together with the process state the program
acts on.  A `Logger` object has no data member, so an object is known by its
address alone; the `k`-th object built by `new Logger()` gets address `k`
(counted from 0), distinct from every earlier one.  `constructed` and
`lockings` are bookkeeping of the model: they record how often the constructor
and `mtx.lock()` have run. -/
structure World where
  /-- Static `Logger::count`. -/
  count : Int
  /-- Static `Logger::loggerInstance`: `none` is `nullptr`, `some a` owns object `a`. -/
  loggerInstance : Option Nat
  /-- Static `Logger::mtx`: `true` while it is locked. -/
  mtx : Bool
  /-- Number of `Logger` objects constructed so far. -/
  constructed : Nat
  /-- Number of times `mtx` has been locked so far. -/
  lockings : Nat
  /-- Standard output. -/
  out : String
  deriving DecidableEq, Repr

/-- The state at program start: `count = 1`, `loggerInstance = nullptr`, `mtx`
unlocked, nothing constructed or printed. -/
def World.init : World :=
  { count := 1, loggerInstance := none, mtx := false, constructed := 0, lockings := 0,
    out := "" }

/-- The expression `new Logger()`: a fresh object whose constructor
`Logger::Logger` prints `"New instance created "` with the value of `count`,
then increments `count`.
Returns the address of the new object. -/
def Logger.new (w : World) : Nat × World :=
  (w.constructed,
    { w with
      out := w.out ++ "New instance created " ++ toString w.count ++ "\n"
      count := w.count + 1
      constructed := w.constructed + 1 })

/-- Method `Logger::Log`: prints the message and a line end. -/
def Logger.Log (w : World) (msg : String) : World :=
  { w with out := w.out ++ msg ++ "\n" }

/-- Method `Logger::getLogger` run by one thread without interference.  The
result is `none` when the call never returns (it waits for a `mtx` that is locked), and
otherwise the returned pointer with the state after the call. -/
def Logger.getLogger (w : World) : Option (Option Nat × World) :=
  if w.loggerInstance = none then
    if w.mtx then none
    else
      let w := { w with mtx := true, lockings := w.lockings + 1 }
      let w :=
        if w.loggerInstance = none then
          let (p, w) := Logger.new w
          { w with loggerInstance := some p }
        else w
      let w := { w with mtx := false }
      some (w.loggerInstance, w)
  else some (w.loggerInstance, w)

/-- Function `user1Log`: `none` when `getLogger` does not return or returns a
null pointer, which `user1->Log` would dereference. -/
def user1Log (w : World) : Option World :=
  match Logger.getLogger w with
  | none => none
  | some (none, _) => none
  | some (some _, w) => some (Logger.Log w "User1 logged")

/-- Function `user2Log`: as `user1Log`, with its own message. -/
def user2Log (w : World) : Option World :=
  match Logger.getLogger w with
  | none => none
  | some (none, _) => none
  | some (some _, w) => some (Logger.Log w "User2 logged")

/-- The two workers of `main` run one after the other from the initial state,
`user1Log` first when `firstIsUser1`, `user2Log` first otherwise. -/
def runWorkers (firstIsUser1 : Bool) : Option World :=
  if firstIsUser1 then (user1Log World.init).bind user2Log
  else (user2Log World.init).bind user1Log

/-- One call of the public interface of `Logger`. -/
inductive Call where
  | getLogger
  | Log (msg : String)
  deriving DecidableEq, Repr

/-- Whether a call is a `getLogger` call. -/
def Call.isGetLogger : Call → Bool
  | .getLogger => true
  | .Log _ => false

/-- A sequence of calls run in order from `w`: the pointers returned by the
`getLogger` calls, in call order, and the final state; `none` when a call does
not return. -/
def runCalls : List Call → World → Option (List (Option Nat) × World)
  | [], w => some ([], w)
  | .getLogger :: cs, w =>
    match Logger.getLogger w with
    | none => none
    | some (p, w1) =>
      match runCalls cs w1 with
      | none => none
      | some (ps, w2) => some (p :: ps, w2)
  | .Log msg :: cs, w => runCalls cs (Logger.Log w msg)

/-- Number of lines of `out` that start with `pat` (a line ends at each `'\n'`). -/
def linesStartingWith (pat : List Char) (out : List Char) : Nat :=
  ((out.splitOn '\n').filter (fun l => pat.isPrefixOf l)).length

/-! ### Threads calling `getLogger` concurrently -/

/-- Where a thread stands inside its call of `getLogger`; each constructor is
the statement the thread runs next. -/
inductive PC where
  /-- Line 49: the first test `loggerInstance == nullptr`, without the lock. -/
  | check1
  /-- Line 50: `lock_guard<mutex> lock(mtx)`; waits while `mtx` is locked. -/
  | lock
  /-- Line 51: the second test `loggerInstance == nullptr`, holding the lock. -/
  | check2
  /-- Line 56: `new Logger()`. -/
  | construct
  /-- Line 56: `loggerInstance.reset(p)` with the object just built. -/
  | reset (p : Nat)
  /-- Line 58: the end of the scope of `lock`, which unlocks `mtx`. -/
  | unlock
  /-- Line 59: `return loggerInstance.get()`. -/
  | ret
  /-- The call has returned `r`. -/
  | done (r : Option Nat)
  deriving DecidableEq, Repr

/-- Whether a thread at this point holds `mtx`. -/
def PC.holds : PC → Bool
  | .check2 | .construct | .reset _ | .unlock => true
  | _ => false

/-- Whether the call has returned. -/
def PC.isDone : PC → Bool
  | .done _ => true
  | _ => false

/-- The statics and the position of every thread; thread `t` is `pcs[t]`. -/
structure State where
  world : World
  pcs : List PC
  deriving DecidableEq, Repr

/-- The state in which `n` threads are each about to call `getLogger`. -/
def State.init (n : Nat) : State :=
  { world := World.init, pcs := List.replicate n PC.check1 }

/-- The statement a thread at `pc` runs next, on the statics `w`: the statics
and the position of the thread afterwards.  `none` when the thread cannot
move: its call has returned, or it waits for a locked `mtx`. -/
def threadStep (w : World) : PC → Option (World × PC)
  | .check1 => some (w, if w.loggerInstance = none then .lock else .ret)
  | .lock =>
    if w.mtx then none
    else some ({ w with mtx := true, lockings := w.lockings + 1 }, .check2)
  | .check2 => some (w, if w.loggerInstance = none then .construct else .unlock)
  | .construct =>
    let (p, w1) := Logger.new w
    some (w1, .reset p)
  | .reset p => some ({ w with loggerInstance := some p }, .unlock)
  | .unlock => some ({ w with mtx := false }, .ret)
  | .ret => some (w, .done w.loggerInstance)
  | .done _ => none

/-- One statement of thread `t`.  `none` when `t` is no thread or cannot move. -/
def step (s : State) (t : Nat) : Option State :=
  match s.pcs[t]? with
  | none => none
  | some pc =>
    match threadStep s.world pc with
    | none => none
    | some (w1, pc1) => some { world := w1, pcs := s.pcs.set t pc1 }

/-- An interleaving: the scheduler picks the threads of `sched` one after the
other; a picked thread that cannot move leaves the state as it is. -/
def exec : List Nat → State → State
  | [], s => s
  | t :: ts, s =>
    match step s t with
    | some s1 => exec ts s1
    | none => exec ts s

/-- Number of statements really run along an interleaving. -/
def stepsRun : List Nat → State → Nat
  | [], _ => 0
  | t :: ts, s =>
    match step s t with
    | some s1 => stepsRun ts s1 + 1
    | none => stepsRun ts s

/-- Every thread has returned from `getLogger`. -/
def State.allDone (s : State) : Bool := s.pcs.all PC.isDone

/-- The pointers the threads that have returned got from `getLogger`. -/
def State.results (s : State) : List (Option Nat) :=
  s.pcs.filterMap (fun pc => match pc with | .done r => some r | _ => none)

/-! ### The workers of `main` as threads -/

/-- Where a worker thread of `main` (`user1Log`, `user2Log`) stands. -/
inductive WPC where
  /-- Inside its call of `getLogger` (lines 76, 81), at `pc`; at `PC.done r` the
  call has returned `r` and the next statement is `user->Log(msg)`. -/
  | inCall (pc : PC)
  /-- The worker has printed its message and returned. -/
  | finished
  /-- The worker has called `Log` through a null pointer. -/
  | nullDeref
  deriving DecidableEq, Repr

/-- A worker thread: the message it logs and where it stands. -/
structure Worker where
  msg : String
  pos : WPC
  deriving DecidableEq, Repr

/-- The statement a worker logging `msg` runs next: a statement of its call of
`getLogger`, or, once the call has returned `r`, the call `r->Log(msg)`, which
dereferences `r`. -/
def workerStep (msg : String) (w : World) : WPC → Option (World × WPC)
  | .inCall (.done none) => some (w, .nullDeref)
  | .inCall (.done (some _)) => some (Logger.Log w msg, .finished)
  | .inCall pc =>
    match threadStep w pc with
    | none => none
    | some (w1, pc1) => some (w1, .inCall pc1)
  | .finished => none
  | .nullDeref => none

/-- The statics and the worker threads; worker `t` is `workers[t]`. -/
structure Demo where
  world : World
  workers : List Worker
  deriving DecidableEq, Repr

/-- Workers logging `msgs`, each about to call `getLogger`, at program start. -/
def Demo.init (msgs : List String) : Demo :=
  { world := World.init, workers := msgs.map (fun m => { msg := m, pos := .inCall .check1 }) }

/-- The threads `t1(user1Log)` and `t2(user2Log)` that `main` starts. -/
def Demo.main : Demo := Demo.init ["User1 logged", "User2 logged"]

/-- One statement of worker `t`; `none` when `t` is no worker or cannot move. -/
def demoStep (d : Demo) (t : Nat) : Option Demo :=
  match d.workers[t]? with
  | none => none
  | some x =>
    match workerStep x.msg d.world x.pos with
    | none => none
    | some (w1, p1) => some { world := w1, workers := d.workers.set t { x with pos := p1 } }

/-- An interleaving of the workers; a picked worker that cannot move leaves the
state as it is. -/
def demoExec : List Nat → Demo → Demo
  | [], d => d
  | t :: ts, d =>
    match demoStep d t with
    | some d1 => demoExec ts d1
    | none => demoExec ts d

/-- Whether the worker has returned. -/
def WPC.isFinished : WPC → Bool
  | .finished => true
  | _ => false

/-- Every worker has returned. -/
def Demo.allFinished (d : Demo) : Bool := d.workers.all (fun x => x.pos.isFinished)

/-! ### Invariants used in the proofs -/

/-- What holds of the statics between two calls of a sequential run: `mtx` is
free, `count` is one more than the number of constructions, `mtx` has been
locked once for each construction, and `loggerInstance` is null exactly as
long as nothing has been constructed, and owns object 0 afterwards. -/
def World.Quiet (w : World) : Prop :=
  w.mtx = false ∧ w.count = 1 + (w.constructed : Int) ∧ w.lockings = w.constructed ∧
    ((w.loggerInstance = none ∧ w.constructed = 0) ∨
      (w.loggerInstance = some 0 ∧ w.constructed = 1))

/-- Upper bound on the statements a thread at this point still runs. -/
def PC.fuel : PC → Nat
  | .check1 => 7
  | .lock => 6
  | .check2 => 5
  | .construct => 4
  | .reset _ => 3
  | .unlock => 2
  | .ret => 1
  | .done _ => 0

/-- Sum of the bounds of all threads. -/
def State.fuel (s : State) : Nat := (s.pcs.map PC.fuel).sum

/-- What holds of the statics while some thread stands at `pc`: a thread about
to construct has seen no instance and nothing is constructed yet; a thread
about to store holds the one object built, number 0; a thread past the store or
past a test that found an instance sees `loggerInstance` own object 0. -/
def PC.Local (w : World) : PC → Prop
  | .check1 => True
  | .lock => True
  | .check2 => w.loggerInstance = none → w.constructed = 0
  | .construct => w.loggerInstance = none ∧ w.constructed = 0
  | .reset p => w.loggerInstance = none ∧ w.constructed = 1 ∧ p = 0
  | .unlock => w.loggerInstance = some 0
  | .ret => w.loggerInstance = some 0
  | .done r => w.loggerInstance = some 0 ∧ r = some 0

/-- The invariant of the interleavings: `count` is 1 plus the number of
constructions, which is at most 1; `loggerInstance` is null or owns object 0,
the one object constructed; the notice has been printed once per construction;
exactly one thread holds `mtx` while it is locked and none while it is free;
while `mtx` is free no constructed object waits to be stored; and every thread
is at a point that agrees with the statics (`PC.Local`). -/
def State.Inv (s : State) : Prop :=
  (s.world.count = 1 + (s.world.constructed : Int) ∧
    (s.world.loggerInstance = none ∨
      (s.world.loggerInstance = some 0 ∧ s.world.constructed = 1)) ∧
    s.world.constructed ≤ 1 ∧
    s.world.out = (if s.world.constructed = 0 then "" else "New instance created 1\n")) ∧
  s.pcs.countP PC.holds = (if s.world.mtx then 1 else 0) ∧
  (s.world.mtx = false → s.world.loggerInstance = none → s.world.constructed = 0) ∧
  ∀ pc ∈ s.pcs, pc.Local s.world

/-- The position inside `getLogger` a worker stands for: a worker past its call
is a caller that has returned, with the pointer it used. -/
def WPC.abs : WPC → PC
  | .inCall pc => pc
  | .finished => .done (some 0)
  | .nullDeref => .done none

/-- Upper bound on the statements a worker at this point still runs. -/
def WPC.fuel : WPC → Nat
  | .inCall pc => pc.fuel + 1
  | .finished => 0
  | .nullDeref => 0

/-- Sum of the bounds of all workers. -/
def Demo.fuel (d : Demo) : Nat := (d.workers.map (fun x => x.pos.fuel)).sum

/-- Two states of the statics that differ at most in standard output. -/
def World.SameStatics (w v : World) : Prop :=
  w.count = v.count ∧ w.loggerInstance = v.loggerInstance ∧ w.mtx = v.mtx ∧
    w.constructed = v.constructed ∧ w.lockings = v.lockings

/-- The invariant of the interleavings of the workers: up to standard output
the state is one of threads inside `getLogger` that satisfies `State.Inv`;
nothing is printed before the construction, and the output starts with the
notice line after it. -/
def Demo.Inv (d : Demo) : Prop :=
  (∃ s : State, s.Inv ∧ s.pcs = d.workers.map (fun x => x.pos.abs) ∧
    d.world.SameStatics s.world) ∧
  (d.world.constructed = 0 → d.world.out = "") ∧
  (d.world.constructed = 1 → ∃ rest, d.world.out = "New instance created 1\n" ++ rest)

/-- The output contains the line the constructor prints. -/
def World.Noticed (w : World) : Prop :=
  ∃ pre post, w.out = pre ++ "New instance created 1\n" ++ post

end Singleton

/-! ## Properties of the Factory demo -/

namespace Factory

set_option maxRecDepth 100000

/-- An input outside `{0,1,2}` is still outside it once read into an `int`. -/
theorem cinInt_unknown (d : Int) (h0 : d ≠ 0) (h1 : d ≠ 1) (h2 : d ≠ 2) :
    cinInt d ≠ 0 ∧ cinInt d ≠ 1 ∧ cinInt d ≠ 2 := by
  unfold cinInt INT_MIN INT_MAX
  split_ifs <;> omega

/-- Claim C1: for each discriminator 0, 1, 2 `CreateButton` returns (printing
nothing) the button of that platform, WinButton, MacButton, LinuxButton, and
`CreateTextBox` the text box of the same platform, WinTextBox, MacTextBox,
LinuxTextBox; triggering the products reports the Windows, Mac and Linux line
respectively. -/
theorem create_known_variants :
    (UIFactory.CreateButton 0 = ("", some IButton.WinButton) ∧
      UIFactory.CreateButton 1 = ("", some IButton.MacButton) ∧
      UIFactory.CreateButton 2 = ("", some IButton.LinuxButton)) ∧
    (UIFactory.CreateTextBox 0 = ("", some ITextBox.WinTextBox) ∧
      UIFactory.CreateTextBox 1 = ("", some ITextBox.MacTextBox) ∧
      UIFactory.CreateTextBox 2 = ("", some ITextBox.LinuxTextBox)) ∧
    (IButton.WinButton.OnClickEvent = "Windows OS Button Click Event\n" ∧
      IButton.MacButton.OnClickEvent = "Mac OS Button Click Event\n" ∧
      IButton.LinuxButton.OnClickEvent = "Linux OS Button Click Event\n") ∧
    (ITextBox.WinTextBox.ShowTextEvent = "Windows OS TextBox Event\n" ∧
      ITextBox.MacTextBox.ShowTextEvent = "Mac OS TextBox Event\n" ∧
      ITextBox.LinuxTextBox.ShowTextEvent = "Linux OS TextBox Event\n") := by
  refine ⟨⟨?_, ?_, ?_⟩, ⟨?_, ?_, ?_⟩, ⟨?_, ?_, ?_⟩, ⟨?_, ?_, ?_⟩⟩ <;> decide

/-- Claim C2: for every integer `d` other than 0, 1 and 2, `CreateButton d` and
`CreateTextBox d` both return a product (no error, a non-null pointer), namely
the Windows variant, and each writes the notice
"Unknown OS type. Defaulting to Windows." as one line. -/
theorem create_unknown_defaults (d : Int) (h0 : d ≠ 0) (h1 : d ≠ 1) (h2 : d ≠ 2) :
    UIFactory.CreateButton d
        = ("Unknown OS type. Defaulting to Windows.\n", some IButton.WinButton) ∧
      UIFactory.CreateTextBox d
        = ("Unknown OS type. Defaulting to Windows.\n", some ITextBox.WinTextBox) := by
  have hn : unknownNotice ++ "\n" = "Unknown OS type. Defaulting to Windows.\n" := by decide
  simp [UIFactory.CreateButton, UIFactory.CreateTextBox, h0, h1, h2, hn]

/-- Claim C2 at the inputs -1 and 99 named by the specification. -/
theorem create_unknown_defaults_witness :
    (UIFactory.CreateButton (-1)
        = ("Unknown OS type. Defaulting to Windows.\n", some IButton.WinButton) ∧
      UIFactory.CreateTextBox (-1)
        = ("Unknown OS type. Defaulting to Windows.\n", some ITextBox.WinTextBox)) ∧
    (UIFactory.CreateButton 99
        = ("Unknown OS type. Defaulting to Windows.\n", some IButton.WinButton) ∧
      UIFactory.CreateTextBox 99
        = ("Unknown OS type. Defaulting to Windows.\n", some ITextBox.WinTextBox)) :=
  ⟨create_unknown_defaults (-1) (by decide) (by decide) (by decide),
    create_unknown_defaults 99 (by decide) (by decide) (by decide)⟩

/-- Claim C9 as stated fails: for the input -1 the notice
"Unknown OS type. Defaulting to Windows." is not printed once, and the output
after the prompt does not have three lines; the notice is printed twice and the
output has four lines. -/
theorem main_unknown_notice_not_once :
    ¬ (countOcc unknownNotice.data (main (-1)).1.data = 1 ∧ lineCount (main (-1)).1 = 3) ∧
      countOcc unknownNotice.data (main (-1)).1.data = 2 ∧ lineCount (main (-1)).1 = 4 := by
  decide

/-- Claim C9, amended: for every integer input other than 0, 1 and 2, `main`
prints the prompt, then the notice line twice (once from `CreateButton`, once
from `CreateTextBox`), then the Windows button report and the Windows text box
report, and exits with code 0. -/
theorem main_unknown_output (d : Int) (h0 : d ≠ 0) (h1 : d ≠ 1) (h2 : d ≠ 2) :
    main d =
      ("Select OS type (0: Windows, 1: Mac, 2: Linux): " ++
        "Unknown OS type. Defaulting to Windows.\n" ++
        "Unknown OS type. Defaulting to Windows.\n" ++
        "Windows OS Button Click Event\n" ++
        "Windows OS TextBox Event\n", 0) := by
  obtain ⟨c0, c1, c2⟩ := cinInt_unknown d h0 h1 h2
  simp only [main, UIFactory.CreateButton, UIFactory.CreateTextBox, c0, c1, c2, if_false]
  decide

/-- Claim C9, amended, at the input 99. -/
theorem main_unknown_output_witness :
    main 99 =
      ("Select OS type (0: Windows, 1: Mac, 2: Linux): " ++
        "Unknown OS type. Defaulting to Windows.\n" ++
        "Unknown OS type. Defaulting to Windows.\n" ++
        "Windows OS Button Click Event\n" ++
        "Windows OS TextBox Event\n", 0) :=
  main_unknown_output 99 (by decide) (by decide) (by decide)

end Factory

/-! ## Properties of the Adapter demo -/

namespace ObjectAdapter

set_option maxRecDepth 100000

/-- Claim C6: for every payload `P` (empty or not), `AnalyseData` on an adapter
built over `XMLData(P)`, called directly or through `Client::ProcessingData`,
writes the conversion line "Converting XML Data: P to JSON format..." followed
by the analysis line "Analysing the converted JSON data."; the output contains
`P`, and it is not the line of the base class.  For the payload of the demo,
`main` writes exactly the two documented lines, in which the text
"Analysing JSON data: " of the base class does not occur. -/
theorem adapter_analyse_output (P : String) :
    (Adapter.new (some (XMLData.mk P))).AnalyseData
        = some ("Converting XML Data: " ++ P ++ " to JSON format...\n" ++
            "Analysing the converted JSON data.\n") ∧
      Client.ProcessingData (some (Adapter.new (some (XMLData.mk P))))
        = some ("Converting XML Data: " ++ P ++ " to JSON format...\n" ++
            "Analysing the converted JSON data.\n") ∧
      (∃ pre post : String,
        (Adapter.new (some (XMLData.mk P))).AnalyseData = some (pre ++ P ++ post)) ∧
      (Adapter.new (some (XMLData.mk P))).AnalyseData
        ≠ (DataAnalyticsTool.base "Converted JSON Data").AnalyseData ∧
      main = some ("Converting XML Data: Sample XML Data to JSON format...\n" ++
          "Analysing the converted JSON data.\n", 0) ∧
      main = some (documentedOutput, 0) ∧
      Factory.countOcc "Analysing JSON data: ".data documentedOutput.data = 0 := by
  have h : (Adapter.new (some (XMLData.mk P))).AnalyseData
        = some ("Converting XML Data: " ++ P ++ " to JSON format...\n" ++
            "Analysing the converted JSON data.\n") := by
    have e1 : " to JSON format..." ++ "\n" = " to JSON format...\n" := by decide
    have e2 : "Analysing the converted JSON data." ++ "\n"
        = "Analysing the converted JSON data.\n" := by decide
    simp only [Adapter.new, DataAnalyticsTool.AnalyseData, XMLData.getXmlData,
      String.append_assoc, e1, e2]
  refine ⟨h, ?_, ?_, ?_, by decide, by decide, by decide⟩
  · simpa [Client.ProcessingData] using h
  · exact ⟨"Converting XML Data: ",
      " to JSON format...\n" ++ "Analysing the converted JSON data.\n", by
        rw [h, String.append_assoc]⟩
  · rw [h]
    intro hEq
    have hd := congrArg (fun o => o.map String.data) hEq
    simp [DataAnalyticsTool.AnalyseData] at hd

end ObjectAdapter

/-! ## Properties of the Singleton demo, one caller at a time -/

namespace Singleton

set_option maxRecDepth 100000

/-- The initial state is quiet. -/
theorem quiet_init : World.init.Quiet := by
  simp [World.Quiet, World.init]

/-- With an instance present `getLogger` returns it and changes nothing. -/
theorem getLogger_of_some (w : World) (a : Nat) (h : w.loggerInstance = some a) :
    Logger.getLogger w = some (some a, w) := by
  simp [Logger.getLogger, h]

/-- Without an instance and with `mtx` free, `getLogger` locks once, constructs
once, stores the new object, unlocks and returns the new object. -/
theorem getLogger_of_none (w : World) (h : w.loggerInstance = none) (hm : w.mtx = false) :
    Logger.getLogger w = some (some w.constructed,
      { count := w.count + 1, loggerInstance := some w.constructed, mtx := false,
        constructed := w.constructed + 1, lockings := w.lockings + 1,
        out := w.out ++ "New instance created " ++ toString w.count ++ "\n" }) := by
  simp [Logger.getLogger, Logger.new, h, hm]

/-- From a quiet state `getLogger` returns object 0, constructed by then, and
leaves a quiet state. -/
theorem getLogger_quiet (w : World) (h : w.Quiet) :
    ∃ w1, Logger.getLogger w = some (some 0, w1) ∧ w1.Quiet ∧
      w1.loggerInstance = some 0 ∧ w1.constructed = 1 := by
  obtain ⟨hm, hc, hl, hi | hi⟩ := h
  · have hg := getLogger_of_none w hi.1 hm
    rw [hi.2] at hg
    refine ⟨_, hg, ⟨rfl, ?_, ?_, Or.inr ⟨rfl, rfl⟩⟩, rfl, rfl⟩
    · show w.count + 1 = 1 + ((0 + 1 : Nat) : Int)
      rw [hc, hi.2]; rfl
    · show w.lockings + 1 = 0 + 1
      rw [hl, hi.2]
  · exact ⟨w, getLogger_of_some w 0 hi.1, ⟨hm, hc, hl, Or.inr hi⟩, hi.1, hi.2⟩

/-- Printing a message keeps a state quiet. -/
theorem log_quiet (w : World) (msg : String) (h : w.Quiet) : (Logger.Log w msg).Quiet := h

/-- A sequential run from a quiet state returns from every call; each
`getLogger` call returns object 0; the final state is quiet, and something has
been constructed at the end when the run has a `getLogger` call, and otherwise
exactly what was constructed before. -/
theorem runCalls_quiet (cs : List Call) :
    ∀ w : World, w.Quiet →
      ∃ ps w1, runCalls cs w = some (ps, w1) ∧ w1.Quiet ∧
        ps = List.replicate (cs.countP Call.isGetLogger) (some 0) ∧
        w1.constructed = (if cs.any Call.isGetLogger then 1 else w.constructed) := by
  induction cs with
  | nil => intro w h; exact ⟨[], w, rfl, h, rfl, rfl⟩
  | cons c cs ih =>
    intro w h
    cases c with
    | getLogger =>
      obtain ⟨w1, hg, hq, _, hc1⟩ := getLogger_quiet w h
      obtain ⟨ps, w2, hr, hq2, hps, hc2⟩ := ih w1 hq
      refine ⟨some 0 :: ps, w2, ?_, hq2, ?_, ?_⟩
      · simp [runCalls, hg, hr]
      · simp [hps, Call.isGetLogger, List.replicate_succ]
      · rw [hc2, hc1]; simp [Call.isGetLogger]
    | Log msg =>
      obtain ⟨ps, w2, hr, hq2, hps, hc2⟩ := ih (Logger.Log w msg) (log_quiet w msg h)
      refine ⟨ps, w2, ?_, hq2, ?_, ?_⟩
      · simp [runCalls, hr]
      · simp [hps, Call.isGetLogger]
      · rw [hc2]; simp [Call.isGetLogger, Logger.Log]

/-- Claim C3: from the initial state every finite sequence of `getLogger` and
`Log` calls runs to its end, and then the constructor of `Logger` has run once
when the sequence has a `getLogger` call and not at all otherwise, so at most
once; the creation counter, 1 at the start, has been incremented as often. -/
theorem constructor_runs_once (cs : List Call) :
    ∃ ps w, runCalls cs World.init = some (ps, w) ∧
      w.constructed = (if cs.any Call.isGetLogger then 1 else 0) ∧
      w.constructed ≤ 1 ∧
      w.count = 1 + (w.constructed : Int) ∧
      w.count = (if cs.any Call.isGetLogger then 2 else 1) := by
  obtain ⟨ps, w, hr, hq, _, hc⟩ := runCalls_quiet cs World.init quiet_init
  have hc1 : w.constructed = (if cs.any Call.isGetLogger then 1 else 0) := hc
  refine ⟨ps, w, hr, hc1, ?_, hq.2.1, ?_⟩
  · rw [hc1]; split <;> simp
  · rw [hq.2.1, hc1]; split <;> rfl

/-- Claim C4: from the initial state every sequence of calls runs to its end,
each `getLogger` call of it returns a pointer, and any two of the returned
pointers are equal. -/
theorem getLogger_handles_equal (cs : List Call) :
    ∃ ps w, runCalls cs World.init = some (ps, w) ∧
      ps.length = cs.countP Call.isGetLogger ∧
      ∀ p ∈ ps, ∀ q ∈ ps, p = q := by
  obtain ⟨ps, w, hr, _, hps, _⟩ := runCalls_quiet cs World.init quiet_init
  refine ⟨ps, w, hr, by simp [hps], ?_⟩
  intro p hp q hq
  rw [hps] at hp hq
  rw [List.eq_of_mem_replicate hp, List.eq_of_mem_replicate hq]

/-- Claim C4 on five calls, three of them `getLogger`: the three returned
pointers are those of the statement and are equal. -/
theorem getLogger_handles_equal_witness :
    runCalls [.getLogger, .Log "a", .getLogger, .Log "b", .getLogger] World.init
        = some ([some 0, some 0, some 0],
            { count := 2, loggerInstance := some 0, mtx := false, constructed := 1,
              lockings := 1, out := "New instance created 1\na\nb\n" }) ∧
      ∃ ps w, runCalls [.getLogger, .Log "a", .getLogger, .Log "b", .getLogger] World.init
          = some (ps, w) ∧
        ps.length = [Call.getLogger, .Log "a", .getLogger, .Log "b", .getLogger].countP
          Call.isGetLogger ∧
        ∀ p ∈ ps, ∀ q ∈ ps, p = q :=
  ⟨by decide, getLogger_handles_equal [.getLogger, .Log "a", .getLogger, .Log "b", .getLogger]⟩

/-- Claim C10: with an instance present, `getLogger` returns that instance and
the state after the call is the state before it, so the instance pointer and
the creation counter are unchanged, nothing is printed and `mtx` is not locked.
`Log` changes nothing but standard output.  A call of `getLogger` that finds
`mtx` free locks it exactly when it constructs, that is when it finds no
instance; so in a sequential run from the initial state `mtx` has been locked
as often as the constructor has run, at most once. -/
theorem getLogger_initialized_unchanged :
    (∀ (w : World) (a : Nat), w.loggerInstance = some a →
      Logger.getLogger w = some (some a, w)) ∧
    (∀ (w : World) (msg : String),
      Logger.Log w msg = { w with out := w.out ++ msg ++ "\n" } ∧
      (Logger.Log w msg).lockings = w.lockings ∧ (Logger.Log w msg).mtx = w.mtx) ∧
    (∀ w : World, w.mtx = false →
      ∃ p w1, Logger.getLogger w = some (p, w1) ∧
        w1.lockings = w.lockings + (if w.loggerInstance = none then 1 else 0) ∧
        w1.constructed = w.constructed + (if w.loggerInstance = none then 1 else 0)) ∧
    (∀ cs : List Call, ∃ ps w, runCalls cs World.init = some (ps, w) ∧
      w.lockings = w.constructed ∧ w.lockings ≤ 1 ∧
      w.lockings = (if cs.any Call.isGetLogger then 1 else 0)) := by
  refine ⟨getLogger_of_some, fun w msg => ⟨rfl, rfl, rfl⟩, ?_, ?_⟩
  · intro w hm
    cases hi : w.loggerInstance with
    | none => exact ⟨_, _, getLogger_of_none w hi hm, by simp, by simp⟩
    | some a => exact ⟨_, _, getLogger_of_some w a hi, by simp, by simp⟩
  · intro cs
    obtain ⟨ps, w, hr, hq, _, hc⟩ := runCalls_quiet cs World.init quiet_init
    have hc1 : w.constructed = (if cs.any Call.isGetLogger then 1 else 0) := hc
    refine ⟨ps, w, hr, hq.2.2.1, ?_, ?_⟩
    · rw [hq.2.2.1, hc1]; split <;> simp
    · rw [hq.2.2.1, hc1]

/-- Claim C10 in the state reached by one `getLogger` call: a second call
returns the same instance and leaves that state as it is. -/
theorem getLogger_initialized_unchanged_witness :
    Logger.getLogger
        { count := 2, loggerInstance := some 0, mtx := false, constructed := 1,
          lockings := 1, out := "New instance created 1\n" }
      = some (some 0,
        { count := 2, loggerInstance := some 0, mtx := false, constructed := 1,
          lockings := 1, out := "New instance created 1\n" }) :=
  getLogger_initialized_unchanged.1 _ 0 rfl

/-- Claim C8: the two workers of the demo run one after the other from the
initial state, in either order, both run to their end, and standard output is
the notice line "New instance created 1" followed by the two log lines in the
order the workers ran; one line of the output and no more starts with
"New instance created". -/
theorem demo_workers_output :
    ((runWorkers true).map World.out
        = some "New instance created 1\nUser1 logged\nUser2 logged\n" ∧
      (runWorkers false).map World.out
        = some "New instance created 1\nUser2 logged\nUser1 logged\n") ∧
    ((runWorkers true).map
        (fun w => linesStartingWith "New instance created".data w.out.data) = some 1 ∧
      (runWorkers false).map
        (fun w => linesStartingWith "New instance created".data w.out.data) = some 1) ∧
    ((runWorkers true).map World.constructed = some 1 ∧
      (runWorkers false).map World.constructed = some 1) := by
  refine ⟨⟨?_, ?_⟩, ⟨?_, ?_⟩, ⟨?_, ?_⟩⟩ <;> decide

/-! ## Properties of the Singleton demo, threads interleaved -/

/-- Replacing the entry at `t` moves the count of entries with `p` by the
difference between the new and the old entry. -/
theorem countP_set_add {α : Type} (p : α → Bool) :
    ∀ (l : List α) (t : Nat) (old new : α), l[t]? = some old →
      (l.set t new).countP p + (if p old then 1 else 0)
        = l.countP p + (if p new then 1 else 0) := by
  intro l
  induction l with
  | nil => intro t old new h; simp at h
  | cons x xs ih =>
    intro t old new h
    cases t with
    | zero =>
      simp at h
      subst h
      simp [List.countP_cons]
      omega
    | succ t =>
      simp at h
      have := ih t old new h
      simp [List.countP_cons]
      omega

/-- Replacing the entry at `t` moves the sum of `f` over the list by the
difference between the new and the old entry. -/
theorem sum_map_set_add {α : Type} (f : α → Nat) :
    ∀ (l : List α) (t : Nat) (old new : α), l[t]? = some old →
      ((l.set t new).map f).sum + f old = (l.map f).sum + f new := by
  intro l
  induction l with
  | nil => intro t old new h; simp at h
  | cons x xs ih =>
    intro t old new h
    cases t with
    | zero =>
      simp at h
      subst h
      simp
      omega
    | succ t =>
      simp at h
      have := ih t old new h
      simp only [List.set_cons_succ, List.map_cons, List.sum_cons]
      omega

/-- In a list with at most one entry with `p`, two members with `p` are equal. -/
theorem countP_le_one_unique {α : Type} (p : α → Bool) :
    ∀ (l : List α) (a b : α), l.countP p ≤ 1 → a ∈ l → b ∈ l →
      p a = true → p b = true → a = b := by
  intro l
  induction l with
  | nil => intro a b _ ha; simp at ha
  | cons x xs ih =>
    intro a b hc ha hb pa pb
    rw [List.countP_cons] at hc
    rcases List.mem_cons.1 ha with h1 | h1 <;> rcases List.mem_cons.1 hb with h2 | h2
    · rw [h1, h2]
    · have : 0 < xs.countP p := List.countP_pos_iff.2 ⟨b, h2, pb⟩
      rw [h1] at pa
      rw [if_pos pa] at hc
      omega
    · have : 0 < xs.countP p := List.countP_pos_iff.2 ⟨a, h1, pa⟩
      rw [h2] at pb
      rw [if_pos pb] at hc
      omega
    · exact ih a b (by omega) h1 h2 pa pb

/-- The entry written at a position of the list is a member afterwards. -/
theorem mem_set_self_of_get {α : Type} (l : List α) (t : Nat) (old new : α)
    (h : l[t]? = some old) : new ∈ l.set t new := by
  obtain ⟨ht, _⟩ := List.getElem?_eq_some.1 h
  exact List.mem_set l t ht new

/-- A step of thread `t` is a step of `threadStep` at the position of `t`. -/
theorem step_eq (s s1 : State) (t : Nat) (h : step s t = some s1) :
    ∃ old new w1, s.pcs[t]? = some old ∧ threadStep s.world old = some (w1, new) ∧
      s1 = { world := w1, pcs := s.pcs.set t new } := by
  unfold step at h
  cases hg : s.pcs[t]? with
  | none => simp [hg] at h
  | some old =>
    cases hts : threadStep s.world old with
    | none => simp [hg, hts] at h
    | some r =>
      obtain ⟨w1, new⟩ := r
      simp [hg, hts] at h
      exact ⟨old, new, w1, rfl, hts, h.symm⟩

/-- While a thread holds the lock, `mtx` is locked. -/
theorem holds_mtx (s : State) (hI : s.Inv) (pc : PC) (hm : pc ∈ s.pcs) (hh : pc.holds = true) :
    s.world.mtx = true := by
  have hpos : 0 < s.pcs.countP PC.holds := List.countP_pos_iff.2 ⟨pc, hm, hh⟩
  have hM := hI.2.1
  cases hmx : s.world.mtx with
  | true => rfl
  | false =>
    rw [hmx] at hM
    simp only [Bool.false_eq_true, if_false] at hM
    omega

/-- While there is no instance, every thread outside the lock is before its
first test or waits for the lock, which constrains the statics in no way. -/
theorem local_of_none (w w2 : World) (pc : PC) (hh : ¬ pc.holds = true)
    (h : pc.Local w) (hi : w.loggerInstance = none) : pc.Local w2 := by
  cases pc with
  | check1 => trivial
  | lock => trivial
  | check2 => exact absurd rfl hh
  | construct => exact absurd rfl hh
  | reset p => exact absurd rfl hh
  | unlock => exact absurd rfl hh
  | ret =>
    have h1 : w.loggerInstance = some 0 := h
    rw [hi] at h1
    exact absurd h1 (by simp)
  | done r =>
    have h1 : w.loggerInstance = some 0 := h.1
    rw [hi] at h1
    exact absurd h1 (by simp)

/-- Every statement of every thread keeps the invariant. -/
theorem inv_step (s s1 : State) (t : Nat) (hI : s.Inv) (h : step s t = some s1) : s1.Inv := by
  obtain ⟨old, new, w1, hget, hts, rfl⟩ := step_eq s s1 t h
  have hmem : old ∈ s.pcs := List.mem_iff_getElem?.2 ⟨t, hget⟩
  have hmx := holds_mtx s hI old hmem
  obtain ⟨⟨hcnt, hinst, hle, hout⟩, hM, hQ, hL⟩ := hI
  have hold : old.Local s.world := hL old hmem
  have hcount := countP_set_add PC.holds s.pcs t old new hget
  have hnew : new ∈ s.pcs.set t new := mem_set_self_of_get s.pcs t old new hget
  have hkeep : ∀ w2 : World, w2.loggerInstance = s.world.loggerInstance →
      w2.constructed = s.world.constructed →
      ∀ pc ∈ s.pcs, pc.Local w2 := by
    intro w2 h1 h2 pc hpc
    have := hL pc hpc
    cases pc <;> first | trivial | simpa [PC.Local, h1, h2] using this
  have hset : ∀ w2 : World, (∀ pc ∈ s.pcs, pc.Local w2) → new.Local w2 →
      ∀ pc ∈ s.pcs.set t new, pc.Local w2 := by
    intro w2 h1 h2 pc hpc
    rcases List.mem_or_eq_of_mem_set hpc with h3 | h3
    · exact h1 pc h3
    · rw [h3]; exact h2
  cases old with
  | check1 =>
    simp only [threadStep, Option.some.injEq, Prod.mk.injEq] at hts
    obtain ⟨rfl, rfl⟩ := hts
    refine ⟨⟨hcnt, hinst, hle, hout⟩, ?_, hQ, hset _ hL ?_⟩
    · rw [← hM]
      by_cases hn : s.world.loggerInstance = none
      · rw [if_pos hn] at hcount ⊢
        simpa [PC.holds] using hcount
      · rw [if_neg hn] at hcount ⊢
        simpa [PC.holds] using hcount
    · split
      · trivial
      · rcases hinst with h1 | h1
        · contradiction
        · exact h1.1
  | lock =>
    have hfree : s.world.mtx = false := by
      cases hmx : s.world.mtx with
      | false => rfl
      | true => simp [threadStep, hmx] at hts
    simp only [threadStep, hfree, Bool.false_eq_true, if_false, Option.some.injEq,
      Prod.mk.injEq] at hts
    obtain ⟨rfl, rfl⟩ := hts
    refine ⟨⟨hcnt, hinst, hle, hout⟩, ?_, ?_, hset _ (hkeep _ rfl rfl) (hQ hfree)⟩
    · rw [hfree] at hM
      simp [PC.holds, hM] at hcount ⊢
      exact hcount
    · intro h1; simp at h1
  | check2 =>
    simp only [threadStep, Option.some.injEq, Prod.mk.injEq] at hts
    obtain ⟨rfl, rfl⟩ := hts
    refine ⟨⟨hcnt, hinst, hle, hout⟩, ?_, hQ, hset _ hL ?_⟩
    · rw [← hM]
      by_cases hn : s.world.loggerInstance = none
      · rw [if_pos hn] at hcount ⊢
        simpa [PC.holds] using hcount
      · rw [if_neg hn] at hcount ⊢
        simpa [PC.holds] using hcount
    · split
      · next h1 => exact ⟨h1, hold h1⟩
      · rcases hinst with h1 | h1
        · contradiction
        · exact h1.1
  | unlock =>
    simp only [threadStep, Option.some.injEq, Prod.mk.injEq] at hts
    obtain ⟨rfl, rfl⟩ := hts
    have hm1 := hmx rfl
    refine ⟨⟨hcnt, hinst, hle, hout⟩, ?_, ?_, hset _ (hkeep _ rfl rfl) hold⟩
    · rw [hm1] at hM
      simp [PC.holds, hM] at hcount ⊢
      exact hcount
    · intro _ h1
      have h2 : s.world.loggerInstance = some 0 := hold
      simp [h2] at h1
  | ret =>
    simp only [threadStep, Option.some.injEq, Prod.mk.injEq] at hts
    obtain ⟨rfl, rfl⟩ := hts
    refine ⟨⟨hcnt, hinst, hle, hout⟩, ?_, hQ, hset _ hL ⟨hold, hold⟩⟩
    · rw [← hM]
      simpa [PC.holds] using hcount
  | done r => simp [threadStep] at hts
  | construct =>
    simp only [threadStep, Logger.new, Option.some.injEq, Prod.mk.injEq] at hts
    obtain ⟨rfl, rfl⟩ := hts
    have hm1 := hmx rfl
    obtain ⟨hi, hc⟩ := hold
    have hM1 : (s.pcs.set t (PC.reset s.world.constructed)).countP PC.holds = 1 := by
      rw [hm1] at hM
      simpa [PC.holds, hM] using hcount
    have hc1 : s.world.count = 1 := by rw [hcnt, hc]; rfl
    have ho1 : s.world.out = "" := by rw [hout, if_pos hc]
    refine ⟨⟨?_, Or.inl hi, ?_, ?_⟩, ?_, ?_, ?_⟩
    · show s.world.count + 1 = 1 + ((s.world.constructed + 1 : Nat) : Int)
      rw [hcnt]; push_cast; ring
    · show s.world.constructed + 1 ≤ 1
      omega
    · show s.world.out ++ "New instance created " ++ toString s.world.count ++ "\n"
        = if s.world.constructed + 1 = 0 then "" else "New instance created 1\n"
      rw [hc1, ho1, if_neg (by omega)]
      decide
    · rw [hM1, hm1]; rfl
    · intro h1
      rw [hm1] at h1
      exact absurd h1 (by decide)
    · intro pc hpc
      by_cases hh : pc.holds = true
      · have := countP_le_one_unique PC.holds _ pc _ (le_of_eq hM1) hpc hnew hh rfl
        rw [this]
        exact ⟨hi, by show s.world.constructed + 1 = 1; omega, hc⟩
      · rcases List.mem_or_eq_of_mem_set hpc with h3 | h3
        · exact local_of_none s.world _ pc hh (hL pc h3) hi
        · rw [h3] at hh
          exact absurd rfl hh
  | reset p =>
    simp only [threadStep, Option.some.injEq, Prod.mk.injEq] at hts
    obtain ⟨rfl, rfl⟩ := hts
    have hm1 := hmx rfl
    obtain ⟨hi, hc, hp⟩ := hold
    have hM1 : (s.pcs.set t PC.unlock).countP PC.holds = 1 := by
      rw [hm1] at hM
      simpa [PC.holds, hM] using hcount
    refine ⟨⟨hcnt, Or.inr ⟨by rw [hp], hc⟩, hle, hout⟩, ?_, ?_, ?_⟩
    · rw [hM1, hm1]; rfl
    · intro h1
      rw [hm1] at h1
      exact absurd h1 (by decide)
    · intro pc hpc
      by_cases hh : pc.holds = true
      · have := countP_le_one_unique PC.holds _ pc _ (le_of_eq hM1) hpc hnew hh rfl
        rw [this]
        show some p = some 0
        rw [hp]
      · rcases List.mem_or_eq_of_mem_set hpc with h3 | h3
        · exact local_of_none s.world _ pc hh (hL pc h3) hi
        · rw [h3] at hh
          exact absurd rfl hh

/-- The invariant holds at program start. -/
theorem inv_init (n : Nat) : (State.init n).Inv := by
  refine ⟨⟨rfl, Or.inl rfl, Nat.zero_le _, rfl⟩, ?_, fun _ _ => rfl, ?_⟩
  · simp [State.init, World.init, List.countP_replicate, PC.holds]
  · intro pc hpc
    rw [State.init, List.mem_replicate] at hpc
    rw [hpc.2]
    trivial

/-- The invariant holds along every interleaving. -/
theorem inv_exec (sched : List Nat) : ∀ s : State, s.Inv → (exec sched s).Inv := by
  induction sched with
  | nil => intro s h; exact h
  | cons t ts ih =>
    intro s h
    unfold exec
    cases hs : step s t with
    | none => exact ih s h
    | some s1 => exact ih s1 (inv_step s s1 t h hs)

theorem length_step (s s1 : State) (t : Nat) (h : step s t = some s1) :
    s1.pcs.length = s.pcs.length := by
  obtain ⟨old, new, w1, _, _, rfl⟩ := step_eq s s1 t h
  simp

theorem length_exec (sched : List Nat) :
    ∀ s : State, (exec sched s).pcs.length = s.pcs.length := by
  induction sched with
  | nil => intro s; rfl
  | cons t ts ih =>
    intro s
    unfold exec
    cases hs : step s t with
    | none => exact ih s
    | some s1 => exact (ih s1).trans (length_step s s1 t hs)

theorem exec_append (a b : List Nat) : ∀ s : State, exec (a ++ b) s = exec b (exec a s) := by
  induction a with
  | nil => intro s; rfl
  | cons t ts ih =>
    intro s
    simp only [List.cons_append, exec]
    cases hs : step s t with
    | none => exact ih s
    | some s1 => exact ih s1

/-- Each statement brings its thread at least one statement closer to the end
of its call. -/
theorem fuel_threadStep (w w1 : World) (old new : PC)
    (h : threadStep w old = some (w1, new)) : new.fuel + 1 ≤ old.fuel := by
  cases old with
  | check1 =>
    simp only [threadStep, Option.some.injEq, Prod.mk.injEq] at h
    rw [← h.2]
    split <;> simp [PC.fuel]
  | lock =>
    by_cases hm : w.mtx = true
    · simp [threadStep, hm] at h
    · simp only [threadStep, hm, Bool.false_eq_true, if_false, Option.some.injEq,
        Prod.mk.injEq] at h
      rw [← h.2]
      simp [PC.fuel]
  | check2 =>
    simp only [threadStep, Option.some.injEq, Prod.mk.injEq] at h
    rw [← h.2]
    split <;> simp [PC.fuel]
  | construct =>
    simp only [threadStep, Logger.new, Option.some.injEq, Prod.mk.injEq] at h
    rw [← h.2]
    simp [PC.fuel]
  | reset p =>
    simp only [threadStep, Option.some.injEq, Prod.mk.injEq] at h
    rw [← h.2]
    simp [PC.fuel]
  | unlock =>
    simp only [threadStep, Option.some.injEq, Prod.mk.injEq] at h
    rw [← h.2]
    simp [PC.fuel]
  | ret =>
    simp only [threadStep, Option.some.injEq, Prod.mk.injEq] at h
    rw [← h.2]
    simp [PC.fuel]
  | done r => simp [threadStep] at h

theorem fuel_step (s s1 : State) (t : Nat) (h : step s t = some s1) :
    s1.fuel + 1 ≤ s.fuel := by
  obtain ⟨old, new, w1, hget, hts, rfl⟩ := step_eq s s1 t h
  have h1 := sum_map_set_add PC.fuel s.pcs t old new hget
  have h2 := fuel_threadStep s.world w1 old new hts
  simp only [State.fuel]
  omega

/-- The statements run along an interleaving are bounded by the fuel at its
start. -/
theorem fuel_exec (sched : List Nat) :
    ∀ s : State, stepsRun sched s + (exec sched s).fuel ≤ s.fuel := by
  induction sched with
  | nil => intro s; simp [stepsRun, exec]
  | cons t ts ih =>
    intro s
    unfold exec stepsRun
    cases hs : step s t with
    | none => exact ih s
    | some s1 =>
      have h1 := ih s1
      have h2 := fuel_step s s1 t hs
      simp only
      omega

theorem fuel_init (n : Nat) : (State.init n).fuel = 7 * n := by
  simp [State.init, State.fuel, PC.fuel, Nat.mul_comm]

/-- A thread that holds the lock, or stands outside it anywhere but at `lock`,
can move. -/
theorem threadStep_isSome (w : World) (pc : PC) (hd : pc.isDone = false)
    (hl : pc = PC.lock → w.mtx = false) : (threadStep w pc).isSome = true := by
  cases pc with
  | lock => simp [threadStep, hl rfl]
  | done r => simp [PC.isDone] at hd
  | construct => simp [threadStep, Logger.new]
  | _ => simp [threadStep]

theorem step_isSome (s : State) (t : Nat) (pc : PC) (hget : s.pcs[t]? = some pc)
    (h : (threadStep s.world pc).isSome = true) : (step s t).isSome = true := by
  unfold step
  rw [hget]
  cases hts : threadStep s.world pc with
  | none => rw [hts] at h; simp at h
  | some r =>
    obtain ⟨w1, pc1⟩ := r
    simp [hts]

/-- No deadlock: as long as some thread has not returned, some thread can move. -/
theorem progress (s : State) (hI : s.Inv) (hd : s.allDone = false) :
    ∃ t, t < s.pcs.length ∧ (step s t).isSome = true := by
  have hex : ∃ pc ∈ s.pcs, pc.isDone = false := by
    by_contra hcon
    push_neg at hcon
    have : s.allDone = true := by
      rw [State.allDone, List.all_eq_true]
      intro x hx
      simpa using hcon x hx
    rw [this] at hd
    exact absurd hd (by decide)
  obtain ⟨pc, hpc, hnd⟩ := hex
  obtain ⟨t, ht⟩ := List.mem_iff_getElem?.1 hpc
  have hlt : ∀ u a, s.pcs[u]? = some a → u < s.pcs.length := by
    intro u a hu
    exact (List.getElem?_eq_some.1 hu).1
  by_cases hblock : pc = PC.lock ∧ s.world.mtx = true
  · have hM := hI.2.1
    rw [hblock.2] at hM
    have hpos : 0 < s.pcs.countP PC.holds := by rw [hM]; decide
    obtain ⟨a, ha, hh⟩ := List.countP_pos_iff.1 hpos
    obtain ⟨u, hu⟩ := List.mem_iff_getElem?.1 ha
    refine ⟨u, hlt u a hu, step_isSome s u a hu (threadStep_isSome _ a ?_ ?_)⟩
    · cases a <;> simp [PC.holds, PC.isDone] at hh ⊢
    · intro h1; rw [h1] at hh; simp [PC.holds] at hh
  · refine ⟨t, hlt t pc ht, step_isSome s t pc ht (threadStep_isSome _ pc hnd ?_)⟩
    intro h1
    cases hm : s.world.mtx with
    | false => rfl
    | true => exact absurd ⟨h1, hm⟩ hblock

/-- From every state that satisfies the invariant some interleaving brings all
threads to the end of their call. -/
theorem completion : ∀ (k : Nat) (s : State), s.fuel ≤ k → s.Inv →
    ∃ ext, (exec ext s).allDone = true := by
  intro k
  induction k with
  | zero =>
    intro s hk hI
    cases hd : s.allDone with
    | true => exact ⟨[], hd⟩
    | false =>
      obtain ⟨t, _, ht⟩ := progress s hI hd
      cases hs : step s t with
      | none => rw [hs] at ht; simp at ht
      | some s1 =>
        have := fuel_step s s1 t hs
        omega
  | succ k ih =>
    intro s hk hI
    cases hd : s.allDone with
    | true => exact ⟨[], hd⟩
    | false =>
      obtain ⟨t, _, ht⟩ := progress s hI hd
      cases hs : step s t with
      | none => rw [hs] at ht; simp at ht
      | some s1 =>
        have h1 := fuel_step s s1 t hs
        obtain ⟨ext, hext⟩ := ih s1 (by omega) (inv_step s s1 t hI hs)
        refine ⟨t :: ext, ?_⟩
        simp only [exec, hs]
        exact hext

/-- Once all threads have returned, each has got object 0. -/
theorem results_of_allDone (s : State) (hI : s.Inv) (hd : s.allDone = true) :
    s.results = List.replicate s.pcs.length (some 0) := by
  have hL := hI.2.2.2
  rw [State.allDone, List.all_eq_true] at hd
  unfold State.results
  generalize s.pcs = l at hL hd
  induction l with
  | nil => rfl
  | cons x xs ih =>
    have hx := hL x (List.mem_cons_self x xs)
    have hdx := hd x (List.mem_cons_self x xs)
    have ih1 := ih (fun pc hpc => hL pc (List.mem_cons_of_mem x hpc))
      (fun pc hpc => hd pc (List.mem_cons_of_mem x hpc))
    cases x with
    | done r =>
      have hr : r = some 0 := hx.2
      simp only [List.filterMap_cons, List.length_cons, List.replicate_succ, ih1, hr]
    | _ => simp [PC.isDone] at hdx

/-- A pointer a thread has got is object 0, which has then been constructed and
is owned by `loggerInstance`. -/
theorem results_mem (s : State) (hI : s.Inv) (r : Option Nat) (hr : r ∈ s.results) :
    r = some 0 ∧ s.world.constructed = 1 ∧ s.world.loggerInstance = some 0 := by
  unfold State.results at hr
  obtain ⟨pc, hpc, hf⟩ := List.mem_filterMap.1 hr
  have hL := hI.2.2.2 pc hpc
  cases pc with
  | done r1 =>
    simp only [Option.some.injEq] at hf
    obtain ⟨h1, h2⟩ := hL
    rcases hI.1.2.1 with h3 | h3
    · rw [h3] at h1; exact absurd h1 (by simp)
    · exact ⟨by rw [← hf, h2], h3.2, h1⟩
  | _ => simp at hf

/-- One thread running alone goes through `getLogger` as the sequential
function does: after its seven statements at most, it has returned the same
pointer and left the same statics. -/
theorem exec_alone (w : World) (hm : w.mtx = false) :
    ∃ p w1, Logger.getLogger w = some (p, w1) ∧
      exec (List.replicate 7 0) { world := w, pcs := [PC.check1] }
        = { world := w1, pcs := [PC.done p] } := by
  cases hi : w.loggerInstance with
  | none =>
    refine ⟨_, _, getLogger_of_none w hi hm, ?_⟩
    simp [List.replicate, exec, step, threadStep, Logger.new, hi, hm]
  | some a =>
    refine ⟨_, _, getLogger_of_some w a hi, ?_⟩
    simp [List.replicate, exec, step, threadStep, hi]

/-- Claim C7: `n ≥ 2` threads each call `getLogger`, their statements (first
test, locking, second test, construction, store, unlocking, return)
interleaved in any way.  At every point of every interleaving at most one
`Logger` has been constructed and the creation counter is 1 plus that number.
Once all threads have returned, exactly one has been constructed, the counter
is 2, the notice has been printed once and every thread got the same object.
No interleaving gets stuck before that, none runs more than `7 * n`
statements, and each can be continued until all threads have returned. -/
theorem concurrent_constructs_once (n : Nat) (hn : 2 ≤ n) (sched : List Nat) :
    ((exec sched (State.init n)).world.constructed ≤ 1 ∧
      (exec sched (State.init n)).world.count
        = 1 + ((exec sched (State.init n)).world.constructed : Int)) ∧
    ((exec sched (State.init n)).allDone = true →
      (exec sched (State.init n)).world.constructed = 1 ∧
      (exec sched (State.init n)).world.count = 2 ∧
      (exec sched (State.init n)).world.out = "New instance created 1\n" ∧
      (exec sched (State.init n)).results = List.replicate n (some 0)) ∧
    ((exec sched (State.init n)).allDone = false →
      ∃ t, t < n ∧ (step (exec sched (State.init n)) t).isSome = true) ∧
    stepsRun sched (State.init n) ≤ 7 * n ∧
    ∃ ext, (exec (sched ++ ext) (State.init n)).allDone = true := by
  have hI := inv_exec sched (State.init n) (inv_init n)
  have hlen : (exec sched (State.init n)).pcs.length = n := by
    rw [length_exec]; simp [State.init]
  refine ⟨⟨hI.1.2.2.1, hI.1.1⟩, ?_, ?_, ?_, ?_⟩
  · intro hd
    have hres := results_of_allDone _ hI hd
    rw [hlen] at hres
    have hmem : some 0 ∈ (exec sched (State.init n)).results := by
      rw [hres, List.mem_replicate]
      exact ⟨by omega, rfl⟩
    obtain ⟨_, hc, _⟩ := results_mem _ hI _ hmem
    refine ⟨hc, ?_, ?_, hres⟩
    · rw [hI.1.1, hc]; rfl
    · rw [hI.1.2.2.2, hc]; rfl
  · intro hd
    obtain ⟨t, ht, hs⟩ := progress _ hI hd
    exact ⟨t, hlen ▸ ht, hs⟩
  · have h1 := fuel_exec sched (State.init n)
    rw [fuel_init] at h1
    omega
  · obtain ⟨ext, hext⟩ := completion _ _ (le_refl _) hI
    exact ⟨ext, by rw [exec_append]; exact hext⟩

/-- Claim C7 for two threads that both pass the first test before either
constructs: the second to lock finds the instance at its second test, and one
object is constructed. -/
theorem concurrent_constructs_once_witness :
    2 ≤ 2 ∧
    (exec [0, 1, 0, 1, 0, 0, 0, 0, 1, 1, 1, 1, 0] (State.init 2)).allDone = true ∧
    (exec [0, 1, 0, 1, 0, 0, 0, 0, 1, 1, 1, 1, 0] (State.init 2)).world.lockings = 2 ∧
    (exec [0, 1, 0, 1, 0, 0, 0, 0, 1, 1, 1, 1, 0] (State.init 2)).world.constructed = 1 ∧
    (exec [0, 1, 0, 1, 0, 0, 0, 0, 1, 1, 1, 1, 0] (State.init 2)).world.count = 2 :=
  ⟨by decide, by decide, by decide,
    ((concurrent_constructs_once 2 (by decide)
      [0, 1, 0, 1, 0, 0, 0, 0, 1, 1, 1, 1, 0]).2.1 (by decide)).1,
    ((concurrent_constructs_once 2 (by decide)
      [0, 1, 0, 1, 0, 0, 0, 0, 1, 1, 1, 1, 0]).2.1 (by decide)).2.1⟩

/-! ## Properties of the Singleton demo, the workers as threads -/

/-- What a worker's statement is: a statement of `getLogger`, the call of `Log`
through a pointer that is not null, or the call through a null pointer. -/
theorem workerStep_cases (msg : String) (w w1 : World) (p p1 : WPC)
    (h : workerStep msg w p = some (w1, p1)) :
    (∃ pc pc1, p = .inCall pc ∧ p1 = .inCall pc1 ∧ threadStep w pc = some (w1, pc1)) ∨
    (∃ a, p = .inCall (.done (some a)) ∧ w1 = Logger.Log w msg ∧ p1 = .finished) ∨
    (p = .inCall (.done none) ∧ w1 = w ∧ p1 = .nullDeref) := by
  cases p with
  | finished => simp [workerStep] at h
  | nullDeref => simp [workerStep] at h
  | inCall pc =>
    cases pc with
    | done r =>
      cases r with
      | none =>
        simp only [workerStep, Option.some.injEq, Prod.mk.injEq] at h
        exact Or.inr (Or.inr ⟨rfl, h.1.symm, h.2.symm⟩)
      | some a =>
        simp only [workerStep, Option.some.injEq, Prod.mk.injEq] at h
        exact Or.inr (Or.inl ⟨a, rfl, h.1.symm, h.2.symm⟩)
    | _ =>
      simp only [workerStep] at h
      split at h
      · simp at h
      · next w2 pc2 hts =>
        simp only [Option.some.injEq, Prod.mk.injEq] at h
        refine Or.inl ⟨_, pc2, rfl, h.2.symm, ?_⟩
        rw [hts, h.1]

/-- A statement of `getLogger` neither reads standard output nor lets it decide
anything: from statics that agree up to the output it moves to statics that
agree up to the output. -/
theorem threadStep_same (w v w1 : World) (pc pc1 : PC) (hs : w.SameStatics v)
    (h : threadStep w pc = some (w1, pc1)) :
    ∃ v1, threadStep v pc = some (v1, pc1) ∧ w1.SameStatics v1 := by
  obtain ⟨h1, h2, h3, h4, h5⟩ := hs
  cases pc with
  | check1 =>
    simp only [threadStep, Option.some.injEq, Prod.mk.injEq] at h
    obtain ⟨rfl, rfl⟩ := h
    exact ⟨v, by simp [threadStep, h2], h1, h2, h3, h4, h5⟩
  | lock =>
    cases hm : w.mtx with
    | true => simp [threadStep, hm] at h
    | false =>
      simp only [threadStep, hm, Bool.false_eq_true, if_false, Option.some.injEq,
        Prod.mk.injEq] at h
      obtain ⟨rfl, rfl⟩ := h
      refine ⟨{ v with mtx := true, lockings := v.lockings + 1 }, ?_, h1, h2, rfl, h4, ?_⟩
      · simp [threadStep, ← h3, hm]
      · show w.lockings + 1 = v.lockings + 1
        rw [h5]
  | check2 =>
    simp only [threadStep, Option.some.injEq, Prod.mk.injEq] at h
    obtain ⟨rfl, rfl⟩ := h
    exact ⟨v, by simp [threadStep, h2], h1, h2, h3, h4, h5⟩
  | construct =>
    simp only [threadStep, Logger.new, Option.some.injEq, Prod.mk.injEq] at h
    obtain ⟨rfl, rfl⟩ := h
    refine ⟨(Logger.new v).2, by simp [threadStep, Logger.new, h4], ?_, h2, h3, ?_, h5⟩
    · show w.count + 1 = v.count + 1
      rw [h1]
    · show w.constructed + 1 = v.constructed + 1
      rw [h4]
  | reset p =>
    simp only [threadStep, Option.some.injEq, Prod.mk.injEq] at h
    obtain ⟨rfl, rfl⟩ := h
    exact ⟨{ v with loggerInstance := some p }, by simp [threadStep], h1, rfl, h3, h4, h5⟩
  | unlock =>
    simp only [threadStep, Option.some.injEq, Prod.mk.injEq] at h
    obtain ⟨rfl, rfl⟩ := h
    exact ⟨{ v with mtx := false }, by simp [threadStep], h1, h2, rfl, h4, h5⟩
  | ret =>
    simp only [threadStep, Option.some.injEq, Prod.mk.injEq] at h
    obtain ⟨rfl, rfl⟩ := h
    exact ⟨v, by simp [threadStep, h2], h1, h2, h3, h4, h5⟩
  | done r => simp [threadStep] at h

/-- Only the construction prints: it appends the notice with the value of
`count` and counts one more object; every other statement of `getLogger`
leaves the output and the number of objects as they are. -/
theorem threadStep_out (w w1 : World) (pc pc1 : PC) (h : threadStep w pc = some (w1, pc1)) :
    (pc = .construct ∧
      w1.out = w.out ++ "New instance created " ++ toString w.count ++ "\n" ∧
      w1.constructed = w.constructed + 1) ∨
    (pc ≠ .construct ∧ w1.out = w.out ∧ w1.constructed = w.constructed) := by
  cases pc with
  | construct =>
    simp only [threadStep, Logger.new, Option.some.injEq, Prod.mk.injEq] at h
    obtain ⟨rfl, rfl⟩ := h
    exact Or.inl ⟨rfl, rfl, rfl⟩
  | lock =>
    cases hm : w.mtx with
    | true => simp [threadStep, hm] at h
    | false =>
      simp only [threadStep, hm, Bool.false_eq_true, if_false, Option.some.injEq,
        Prod.mk.injEq] at h
      obtain ⟨rfl, rfl⟩ := h
      exact Or.inr ⟨by simp, rfl, rfl⟩
  | done r => simp [threadStep] at h
  | check1 =>
    simp only [threadStep, Option.some.injEq, Prod.mk.injEq] at h
    obtain ⟨rfl, rfl⟩ := h
    exact Or.inr ⟨by simp, rfl, rfl⟩
  | check2 =>
    simp only [threadStep, Option.some.injEq, Prod.mk.injEq] at h
    obtain ⟨rfl, rfl⟩ := h
    exact Or.inr ⟨by simp, rfl, rfl⟩
  | reset p =>
    simp only [threadStep, Option.some.injEq, Prod.mk.injEq] at h
    obtain ⟨rfl, rfl⟩ := h
    exact Or.inr ⟨by simp, rfl, rfl⟩
  | unlock =>
    simp only [threadStep, Option.some.injEq, Prod.mk.injEq] at h
    obtain ⟨rfl, rfl⟩ := h
    exact Or.inr ⟨by simp, rfl, rfl⟩
  | ret =>
    simp only [threadStep, Option.some.injEq, Prod.mk.injEq] at h
    obtain ⟨rfl, rfl⟩ := h
    exact Or.inr ⟨by simp, rfl, rfl⟩

/-- A step of worker `t` is a step of `workerStep` at the position of `t`. -/
theorem demoStep_eq (d d1 : Demo) (t : Nat) (h : demoStep d t = some d1) :
    ∃ x w1 p1, d.workers[t]? = some x ∧ workerStep x.msg d.world x.pos = some (w1, p1) ∧
      d1 = { world := w1, workers := d.workers.set t { x with pos := p1 } } := by
  unfold demoStep at h
  cases hg : d.workers[t]? with
  | none => simp [hg] at h
  | some x =>
    cases hws : workerStep x.msg d.world x.pos with
    | none => simp [hg, hws] at h
    | some r =>
      obtain ⟨w1, p1⟩ := r
      simp [hg, hws] at h
      exact ⟨x, w1, p1, rfl, hws, h.symm⟩

/-- Writing at a position the entry that is there changes nothing. -/
theorem set_same {α : Type} :
    ∀ (l : List α) (t : Nat) (a : α), l[t]? = some a → l.set t a = l := by
  intro l
  induction l with
  | nil => intro t a h; simp at h
  | cons x xs ih =>
    intro t a h
    cases t with
    | zero => simp at h; simp [h]
    | succ t => simp at h; simp [ih t a h]

/-- Every statement of every worker keeps the invariant. -/
theorem demo_inv_step (d d1 : Demo) (t : Nat) (hI : d.Inv) (h : demoStep d t = some d1) :
    d1.Inv := by
  obtain ⟨x, w1, p1, hget, hws, rfl⟩ := demoStep_eq d d1 t h
  obtain ⟨⟨s, hs, hpcs, hsame⟩, ho0, ho1⟩ := hI
  have hsget : s.pcs[t]? = some x.pos.abs := by
    rw [hpcs, List.getElem?_map, hget]; rfl
  have hloc : x.pos.abs.Local s.world := hs.2.2.2 _ (List.mem_iff_getElem?.2 ⟨t, hsget⟩)
  have hmap : (d.workers.set t { x with pos := p1 }).map (fun y => y.pos.abs)
      = s.pcs.set t p1.abs := by
    rw [List.map_set, hpcs]
  rcases workerStep_cases _ _ _ _ _ hws with ⟨pc, pc1, hp, hp1, hts⟩ | ⟨a, hp, hw1, hp1⟩ |
    ⟨hp, _, _⟩
  · -- a statement of `getLogger`
    obtain ⟨v1, hvs, hsame1⟩ := threadStep_same _ _ _ _ _ hsame hts
    rw [hp] at hsget hloc
    have hstep : step s t = some { world := v1, pcs := s.pcs.set t pc1 } := by
      simp [step, hsget, WPC.abs, hvs]
    have hs1 := inv_step s _ t hs hstep
    refine ⟨⟨_, hs1, ?_, hsame1⟩, ?_, ?_⟩
    · rw [hmap, hp1]; rfl
    · intro hc
      rcases threadStep_out _ _ _ _ hts with ⟨_, _, h3⟩ | ⟨_, h2, h3⟩
      · change w1.constructed = 0 at hc
        omega
      · change w1.constructed = 0 at hc
        show w1.out = ""
        rw [h2]
        exact ho0 (by omega)
    · intro hc
      change w1.constructed = 1 at hc
      show ∃ rest, w1.out = "New instance created 1\n" ++ rest
      rcases threadStep_out _ _ _ _ hts with ⟨h1, h2, h3⟩ | ⟨_, h2, h3⟩
      · have hc0 : d.world.constructed = 0 := by omega
        have hcnt : d.world.count = 1 := by
          rw [hsame.1, hs.1.1, ← hsame.2.2.2.1, hc0]; rfl
        refine ⟨"", ?_⟩
        rw [h2, ho0 hc0, hcnt]
        decide
      · rw [h2]
        exact ho1 (by omega)
  · -- the call of `Log` through the pointer returned
    rw [hp] at hsget hloc
    have ha : a = 0 := by
      have h2 : some a = some 0 := hloc.2
      simpa using h2
    have hc1 : s.world.constructed = 1 := by
      rcases hs.1.2.1 with h3 | h3
      · have h4 : s.world.loggerInstance = some 0 := hloc.1
        rw [h3] at h4
        exact absurd h4 (by simp)
      · exact h3.2
    have hdc : d.world.constructed = 1 := by rw [hsame.2.2.2.1, hc1]
    refine ⟨⟨s, hs, ?_, ?_⟩, ?_, ?_⟩
    · rw [hmap, hp1]
      have : s.pcs[t]? = some (WPC.finished).abs := by
        rw [hsget, ha]; rfl
      exact (set_same s.pcs t _ this).symm
    · rw [hw1]; exact hsame
    · intro hc
      rw [hw1] at hc
      change d.world.constructed = 0 at hc
      omega
    · intro _
      obtain ⟨rest, hrest⟩ := ho1 hdc
      refine ⟨rest ++ x.msg ++ "\n", ?_⟩
      rw [hw1]
      show d.world.out ++ x.msg ++ "\n" = "New instance created 1\n" ++ (rest ++ x.msg ++ "\n")
      rw [hrest]
      simp [String.append_assoc]
  · -- the call of `Log` through a null pointer: no worker gets there
    rw [hp] at hloc
    have h2 : (none : Option Nat) = some 0 := hloc.2
    exact absurd h2 (by simp)

/-- The invariant holds when the workers start. -/
theorem demo_inv_init (msgs : List String) : (Demo.init msgs).Inv := by
  refine ⟨⟨State.init msgs.length, inv_init _, ?_, rfl, rfl, rfl, rfl, rfl⟩, fun _ => rfl, ?_⟩
  · simp only [State.init, Demo.init, List.map_map]
    induction msgs with
    | nil => rfl
    | cons m ms ih =>
      simp only [List.length_cons, List.replicate_succ, List.map_cons, ih]
      rfl
  · intro h
    have h0 : (Demo.init msgs).world.constructed = 0 := rfl
    rw [h0] at h
    exact absurd h (by decide)

/-- The invariant holds along every interleaving of the workers. -/
theorem demo_inv_exec (sched : List Nat) : ∀ d : Demo, d.Inv → (demoExec sched d).Inv := by
  induction sched with
  | nil => intro d h; exact h
  | cons t ts ih =>
    intro d h
    unfold demoExec
    cases hs : demoStep d t with
    | none => exact ih d h
    | some d1 => exact ih d1 (demo_inv_step d d1 t h hs)

theorem demoExec_append (a b : List Nat) :
    ∀ d : Demo, demoExec (a ++ b) d = demoExec b (demoExec a d) := by
  induction a with
  | nil => intro d; rfl
  | cons t ts ih =>
    intro d
    simp only [List.cons_append, demoExec]
    cases hs : demoStep d t with
    | none => exact ih d
    | some d1 => exact ih d1

/-- Each statement brings its worker at least one statement closer to its end. -/
theorem fuel_demoStep (d d1 : Demo) (t : Nat) (h : demoStep d t = some d1) :
    d1.fuel + 1 ≤ d.fuel := by
  obtain ⟨x, w1, p1, hget, hws, rfl⟩ := demoStep_eq d d1 t h
  have h1 := sum_map_set_add (fun y : Worker => y.pos.fuel) d.workers t x
    { x with pos := p1 } hget
  have h2 : p1.fuel + 1 ≤ x.pos.fuel := by
    rcases workerStep_cases _ _ _ _ _ hws with ⟨pc, pc1, hp, hp1, hts⟩ | ⟨a, hp, _, hp1⟩ |
      ⟨hp, _, hp1⟩
    · rw [hp, hp1]
      have := fuel_threadStep _ _ _ _ hts
      simp only [WPC.fuel]
      omega
    · rw [hp, hp1]; simp [WPC.fuel]
    · rw [hp, hp1]; simp [WPC.fuel]
  simp only [Demo.fuel]
  simp only at h1
  omega

/-- A step of a thread is possible only for a thread that has not returned and
whose next statement can run. -/
theorem step_isSome_inv (s : State) (t : Nat) (h : (step s t).isSome = true) :
    ∃ pc, s.pcs[t]? = some pc ∧ (threadStep s.world pc).isSome = true := by
  cases hs : step s t with
  | none => rw [hs] at h; simp at h
  | some s1 =>
    obtain ⟨old, new, w1, hget, hts, _⟩ := step_eq s s1 t hs
    exact ⟨old, hget, by rw [hts]; rfl⟩

/-- No deadlock among the workers: as long as one has not returned, one can move. -/
theorem demo_progress (d : Demo) (hI : d.Inv) (hd : d.allFinished = false) :
    ∃ t, (demoStep d t).isSome = true := by
  obtain ⟨⟨s, hs, hpcs, hsame⟩, _, _⟩ := hI
  have hex : ∃ x ∈ d.workers, x.pos.isFinished = false := by
    by_contra hcon
    push_neg at hcon
    have : d.allFinished = true := by
      rw [Demo.allFinished, List.all_eq_true]
      intro x hx
      simpa using hcon x hx
    rw [this] at hd
    exact absurd hd (by decide)
  have hstepw : ∀ (u : Nat) (y : Worker), d.workers[u]? = some y →
      (workerStep y.msg d.world y.pos).isSome = true → (demoStep d u).isSome = true := by
    intro u y hu hw
    unfold demoStep
    rw [hu]
    cases hws : workerStep y.msg d.world y.pos with
    | none => rw [hws] at hw; simp at hw
    | some r => obtain ⟨w1, p1⟩ := r; simp [hws]
  obtain ⟨x, hx, hnf⟩ := hex
  obtain ⟨t, ht⟩ := List.mem_iff_getElem?.1 hx
  have hsget : s.pcs[t]? = some x.pos.abs := by
    rw [hpcs, List.getElem?_map, ht]; rfl
  by_cases hdone : x.pos.abs.isDone = true
  · -- the worker is past its call: it can call `Log`
    refine ⟨t, hstepw t x ht ?_⟩
    have hloc : x.pos.abs.Local s.world := hs.2.2.2 _ (List.mem_iff_getElem?.2 ⟨t, hsget⟩)
    cases hp : x.pos with
    | finished => rw [hp] at hnf; simp [WPC.isFinished] at hnf
    | nullDeref =>
      rw [hp] at hloc
      have h2 : (none : Option Nat) = some 0 := hloc.2
      exact absurd h2 (by simp)
    | inCall pc =>
      rw [hp] at hdone
      cases pc with
      | done r =>
        cases r with
        | none => simp [workerStep]
        | some a => simp [workerStep]
      | _ => simp [WPC.abs, PC.isDone] at hdone
  · -- some thread is inside `getLogger`: one of them can move
    have hnd : s.allDone = false := by
      cases hall : s.allDone with
      | false => rfl
      | true =>
        rw [State.allDone, List.all_eq_true] at hall
        exact absurd (hall _ (List.mem_iff_getElem?.2 ⟨t, hsget⟩)) hdone
    obtain ⟨u, _, hu⟩ := progress s hs hnd
    obtain ⟨pcu, hpu, hsome⟩ := step_isSome_inv s u hu
    rw [hpcs, List.getElem?_map] at hpu
    cases hyu : d.workers[u]? with
    | none => rw [hyu] at hpu; simp at hpu
    | some y =>
      rw [hyu] at hpu
      simp only [Option.map_some', Option.some.injEq] at hpu
      refine ⟨u, hstepw u y hyu ?_⟩
      cases hts : threadStep s.world pcu with
      | none => rw [hts] at hsome; simp at hsome
      | some r =>
        obtain ⟨v1, pc1⟩ := r
        have hsym : s.world.SameStatics d.world :=
          ⟨hsame.1.symm, hsame.2.1.symm, hsame.2.2.1.symm, hsame.2.2.2.1.symm,
            hsame.2.2.2.2.symm⟩
        obtain ⟨w1, hw1, _⟩ := threadStep_same _ _ _ _ _ hsym hts
        cases hp : y.pos with
        | finished => rw [hp] at hpu; rw [← hpu] at hts; simp [WPC.abs, threadStep] at hts
        | nullDeref => rw [hp] at hpu; rw [← hpu] at hts; simp [WPC.abs, threadStep] at hts
        | inCall pc =>
          rw [hp] at hpu
          have hpc : pc = pcu := hpu
          rw [hpc]
          cases pcu with
          | done r => simp [threadStep] at hts
          | _ => simp [workerStep, hw1]

/-- From every state that satisfies the invariant some interleaving brings all
workers to their end. -/
theorem demo_completion : ∀ (k : Nat) (d : Demo), d.fuel ≤ k → d.Inv →
    ∃ ext, (demoExec ext d).allFinished = true := by
  intro k
  induction k with
  | zero =>
    intro d hk hI
    cases hd : d.allFinished with
    | true => exact ⟨[], hd⟩
    | false =>
      obtain ⟨t, ht⟩ := demo_progress d hI hd
      cases hs : demoStep d t with
      | none => rw [hs] at ht; simp at ht
      | some d1 =>
        have := fuel_demoStep d d1 t hs
        omega
  | succ k ih =>
    intro d hk hI
    cases hd : d.allFinished with
    | true => exact ⟨[], hd⟩
    | false =>
      obtain ⟨t, ht⟩ := demo_progress d hI hd
      cases hs : demoStep d t with
      | none => rw [hs] at ht; simp at ht
      | some d1 =>
        have h1 := fuel_demoStep d d1 t hs
        obtain ⟨ext, hext⟩ := ih d1 (by omega) (demo_inv_step d d1 t hI hs)
        refine ⟨t :: ext, ?_⟩
        simp only [demoExec, hs]
        exact hext

/-- Under the invariant no worker has called `Log` through a null pointer, and
a worker whose call of `getLogger` has returned, or that has finished, got
object 0, constructed by then: `loggerInstance` owns it, `count` is 2 and the
output starts with the notice line. -/
theorem demo_inv_returned (d : Demo) (hI : d.Inv) (x : Worker) (hx : x ∈ d.workers) :
    x.pos ≠ WPC.nullDeref ∧
    (∀ r, x.pos = WPC.inCall (PC.done r) ∨ (x.pos = WPC.finished ∧ r = some 0) →
      r = some 0 ∧ d.world.loggerInstance = some 0 ∧ d.world.count = 2 ∧
      d.world.constructed = 1 ∧
      ∃ rest, d.world.out = "New instance created 1\n" ++ rest) := by
  obtain ⟨⟨s, hs, hpcs, hsame⟩, _, ho1⟩ := hI
  have hmem : x.pos.abs ∈ s.pcs := by
    rw [hpcs]; exact List.mem_map.2 ⟨x, hx, rfl⟩
  have hloc : x.pos.abs.Local s.world := hs.2.2.2 _ hmem
  have key : ∀ r, x.pos.abs = PC.done r →
      r = some 0 ∧ d.world.loggerInstance = some 0 ∧ d.world.count = 2 ∧
      d.world.constructed = 1 ∧
      ∃ rest, d.world.out = "New instance created 1\n" ++ rest := by
    intro r hr
    rw [hr] at hloc
    obtain ⟨h1, h2⟩ := hloc
    have hc1 : s.world.constructed = 1 := by
      rcases hs.1.2.1 with h3 | h3
      · rw [h3] at h1; exact absurd h1 (by simp)
      · exact h3.2
    have hdc : d.world.constructed = 1 := by rw [hsame.2.2.2.1, hc1]
    refine ⟨h2, by rw [hsame.2.1, h1], ?_, hdc, ho1 hdc⟩
    rw [hsame.1, hs.1.1, hc1]; rfl
  constructor
  · intro hp
    have := (key none (by rw [hp]; rfl)).1
    exact absurd this (by simp)
  · intro r hr
    rcases hr with hr | ⟨hr, h0⟩
    · exact key r (by rw [hr]; rfl)
    · rw [h0]; exact key (some 0) (by rw [hr]; rfl)

/-- A call of `getLogger` from a quiet state leaves the notice line in the
output: it prints it when it constructs, and finds it printed otherwise. -/
theorem getLogger_noticed (w w1 : World) (p : Option Nat) (hq : w.Quiet)
    (hn : w.constructed = 1 → w.Noticed) (h : Logger.getLogger w = some (p, w1)) :
    w1.Noticed ∧
      (w.loggerInstance = none →
        w.count = 1 ∧ w1.out = w.out ++ "New instance created 1\n") := by
  obtain ⟨hm, hc, _, hi | hi⟩ := hq
  · have hc1 : w.count = 1 := by rw [hc, hi.2]; rfl
    have hg := getLogger_of_none w hi.1 hm
    rw [hg] at h
    simp only [Option.some.injEq, Prod.mk.injEq] at h
    have ho : w1.out = w.out ++ "New instance created 1\n" := by
      rw [← h.2, hc1]
      show w.out ++ "New instance created " ++ toString (1 : Int) ++ "\n"
        = w.out ++ "New instance created 1\n"
      rw [String.append_assoc, String.append_assoc]
      congr 1
    exact ⟨⟨w.out, "", by rw [ho]; simp⟩, fun _ => ⟨hc1, ho⟩⟩
  · have hg := getLogger_of_some w 0 hi.1
    rw [hg] at h
    simp only [Option.some.injEq, Prod.mk.injEq] at h
    rw [← h.2]
    refine ⟨hn hi.2, ?_⟩
    intro h0
    rw [hi.1] at h0
    exact absurd h0 (by simp)

/-- Along a sequential run from a quiet state, once an object has been
constructed the notice line is in the output. -/
theorem runCalls_noticed (cs : List Call) :
    ∀ (w w1 : World) (ps : List (Option Nat)), w.Quiet → (w.constructed = 1 → w.Noticed) →
      runCalls cs w = some (ps, w1) → (w1.constructed = 1 → w1.Noticed) := by
  induction cs with
  | nil =>
    intro w w1 ps _ hn h
    simp only [runCalls, Option.some.injEq, Prod.mk.injEq] at h
    rw [← h.2]
    exact hn
  | cons c cs ih =>
    intro w w1 ps hq hn h
    cases c with
    | getLogger =>
      obtain ⟨w2, hg, hq2, _, _⟩ := getLogger_quiet w hq
      have hn2 := (getLogger_noticed w w2 _ hq hn hg).1
      simp only [runCalls, hg] at h
      cases hr : runCalls cs w2 with
      | none => rw [hr] at h; simp at h
      | some r =>
        obtain ⟨ps2, w3⟩ := r
        rw [hr] at h
        simp only [Option.some.injEq, Prod.mk.injEq] at h
        rw [← h.2]
        exact ih w2 w3 ps2 hq2 (fun _ => hn2) hr
    | Log msg =>
      simp only [runCalls] at h
      refine ih (Logger.Log w msg) w1 ps (log_quiet w msg hq) ?_ h
      intro hc
      obtain ⟨pre, post, hout⟩ := hn hc
      refine ⟨pre, post ++ msg ++ "\n", ?_⟩
      show w.out ++ msg ++ "\n" = pre ++ "New instance created 1\n" ++ (post ++ msg ++ "\n")
      rw [hout]
      simp [String.append_assoc]

/-- Claim C5: `getLogger` never returns a null pointer or one to an object whose
constructor has not run to its end.  In every state a sequential run reaches
from the initial state, with or without an instance, the call returns the
address of an object that `loggerInstance` owns, and by then the constructor
has printed its notice line and incremented `count` from 1 to 2 (in the state
without an instance it is this call that does so); `user1Log` and `user2Log`
run there to their end.  With the workers running as threads, their statements
interleaved in any way, no worker ever calls `Log` through a null pointer: every
pointer a call of `getLogger` has returned is object 0, owned by
`loggerInstance`, with `count` at 2 and the notice line first in the output; and
every interleaving can be continued until all workers have finished. -/
theorem getLogger_never_null (cs : List Call) (msgs : List String) (sched : List Nat) :
    (∃ ps w, runCalls cs World.init = some (ps, w) ∧
      ∃ a w1, Logger.getLogger w = some (some a, w1) ∧
        a < w1.constructed ∧ w1.loggerInstance = some a ∧
        w1.count = 2 ∧
        (∃ pre post, w1.out = pre ++ "New instance created 1\n" ++ post) ∧
        (w.loggerInstance = none →
          w.count = 1 ∧ w1.out = w.out ++ "New instance created 1\n") ∧
        user1Log w = some (Logger.Log w1 "User1 logged") ∧
        user2Log w = some (Logger.Log w1 "User2 logged")) ∧
    (∀ x ∈ (demoExec sched (Demo.init msgs)).workers,
      x.pos ≠ WPC.nullDeref ∧
      ∀ r, x.pos = WPC.inCall (PC.done r) →
        r = some 0 ∧
        (demoExec sched (Demo.init msgs)).world.loggerInstance = some 0 ∧
        (demoExec sched (Demo.init msgs)).world.count = 2 ∧
        ∃ rest, (demoExec sched (Demo.init msgs)).world.out
          = "New instance created 1\n" ++ rest) ∧
    (∃ ext, (demoExec (sched ++ ext) (Demo.init msgs)).allFinished = true) := by
  refine ⟨?_, ?_, ?_⟩
  · obtain ⟨ps, w, hr, hq, _, _⟩ := runCalls_quiet cs World.init quiet_init
    have hn := runCalls_noticed cs World.init w ps quiet_init
      (fun h => absurd h (by decide)) hr
    obtain ⟨w1, hg, hq1, hi, hc⟩ := getLogger_quiet w hq
    obtain ⟨hn1, hfirst⟩ := getLogger_noticed w w1 _ hq hn hg
    refine ⟨ps, w, hr, 0, w1, hg, by omega, hi, ?_, hn1, hfirst, ?_, ?_⟩
    · rw [hq1.2.1, hc]; rfl
    · simp [user1Log, hg]
    · simp [user2Log, hg]
  · intro x hx
    have hI := demo_inv_exec sched _ (demo_inv_init msgs)
    obtain ⟨h1, h2⟩ := demo_inv_returned _ hI x hx
    refine ⟨h1, fun r hr => ?_⟩
    obtain ⟨a, b, c, _, e⟩ := h2 r (Or.inl hr)
    exact ⟨a, b, c, e⟩
  · have hI := demo_inv_exec sched _ (demo_inv_init msgs)
    obtain ⟨ext, hext⟩ := demo_completion _ _ (le_refl _) hI
    exact ⟨ext, by rw [demoExec_append]; exact hext⟩

/-- Claim C5 at concrete inputs: the first and the second call of `getLogger`
of a sequential run, and the two workers of `main` interleaved so that both
pass the first test before either constructs; when both calls have returned
neither worker has logged yet and both hold object 0, and two more statements
bring both workers to their end. -/
theorem getLogger_never_null_witness :
    Logger.getLogger World.init
      = some (some 0,
          { count := 2, loggerInstance := some 0, mtx := false, constructed := 1,
            lockings := 1, out := "New instance created 1\n" }) ∧
    (demoExec [0, 1, 0, 1, 0, 0, 0, 0, 1, 1, 1, 1, 0] Demo.main).workers
      = [{ msg := "User1 logged", pos := .inCall (.done (some 0)) },
         { msg := "User2 logged", pos := .inCall (.done (some 0)) }] ∧
    (demoExec [0, 1, 0, 1, 0, 0, 0, 0, 1, 1, 1, 1, 0, 1, 0] Demo.main)
      = { world :=
            { count := 2, loggerInstance := some 0, mtx := false, constructed := 1,
              lockings := 2,
              out := "New instance created 1\nUser2 logged\nUser1 logged\n" },
          workers :=
            [{ msg := "User1 logged", pos := .finished },
             { msg := "User2 logged", pos := .finished }] } ∧
    ((∃ ps w, runCalls [.getLogger] World.init = some (ps, w) ∧
      ∃ a w1, Logger.getLogger w = some (some a, w1) ∧
        a < w1.constructed ∧ w1.loggerInstance = some a ∧
        w1.count = 2 ∧
        (∃ pre post, w1.out = pre ++ "New instance created 1\n" ++ post) ∧
        (w.loggerInstance = none →
          w.count = 1 ∧ w1.out = w.out ++ "New instance created 1\n") ∧
        user1Log w = some (Logger.Log w1 "User1 logged") ∧
        user2Log w = some (Logger.Log w1 "User2 logged")) ∧
    (∀ x ∈ (demoExec [0, 1, 0, 1, 0, 0, 0, 0, 1, 1, 1, 1, 0]
        (Demo.init ["User1 logged", "User2 logged"])).workers,
      x.pos ≠ WPC.nullDeref ∧
      ∀ r, x.pos = WPC.inCall (PC.done r) →
        r = some 0 ∧
        (demoExec [0, 1, 0, 1, 0, 0, 0, 0, 1, 1, 1, 1, 0]
          (Demo.init ["User1 logged", "User2 logged"])).world.loggerInstance = some 0 ∧
        (demoExec [0, 1, 0, 1, 0, 0, 0, 0, 1, 1, 1, 1, 0]
          (Demo.init ["User1 logged", "User2 logged"])).world.count = 2 ∧
        ∃ rest, (demoExec [0, 1, 0, 1, 0, 0, 0, 0, 1, 1, 1, 1, 0]
          (Demo.init ["User1 logged", "User2 logged"])).world.out
          = "New instance created 1\n" ++ rest) ∧
    (∃ ext, (demoExec ([0, 1, 0, 1, 0, 0, 0, 0, 1, 1, 1, 1, 0] ++ ext)
      (Demo.init ["User1 logged", "User2 logged"])).allFinished = true)) :=
  ⟨by decide, by decide, by decide,
    getLogger_never_null [.getLogger] ["User1 logged", "User2 logged"]
      [0, 1, 0, 1, 0, 0, 0, 0, 1, 1, 1, 1, 0]⟩

end Singleton
